/-
  Verification of the audio mixing / mastering engine and the GPU frame-capture
  pipeline of `src/src-tauri/src/render.rs` (Phigros-Recorder).

  Embedding conventions:
  * `f32`/`f64` sample arithmetic is modelled over `ℚ` (the operations the code
    performs on samples are `+`, `*`, `/`, `abs`, `min`, `max`, which are exact).
  * A `Vec<f32>` audio buffer is modelled either as a `List ℚ` (when the code
    iterates it in order) or as a length together with an index function
    `ℕ → ℚ` (for the in-place indexed writes of `place`).
  * Wall-clock times (`Instant`) and the actual pixel contents of rendered
    frames are abstracted: frames are identified by their frame index.
-/
import Mathlib

/-- The pipeline's fixed sample rate, `let sample_rate = 48000` (render.rs:260). -/
def sampleRate : ℕ := 48000

/-- Rust `f64::round`: round half away from zero (exact on our `ℚ` model). -/
def rustRound (q : ℚ) : ℤ := if 0 ≤ q then ⌊q + 1/2⌋ else -⌊-q + 1/2⌋

/-- `(pos * sample_rate_f64).round() as usize` (render.rs:272); the Rust
float-to-`usize` cast saturates negative values to `0`. -/
def rustIndex (pos : ℚ) : ℕ := (rustRound (pos * (sampleRate : ℚ))).toNat

/-- The `place` closure (render.rs:271-286).  The fx buffer `output2` is a
`Vec<f32>` of length `n`, modelled as an index function `buf : ℕ → ℚ`; only
indices `< n` are meaningful.  Returns the updated buffer and the number of
samples written (`len`).  The clip's (mono) samples are a `List ℚ`. -/
def place (n : ℕ) (buf : ℕ → ℚ) (pos : ℚ) (clip : List ℚ) (vol : ℚ) :
    (ℕ → ℚ) × ℕ :=
  let position := rustIndex pos
  if n ≤ position then (buf, 0)
  else
    let len := min (n - position) clip.length
    (fun i =>
      if position ≤ i ∧ i < position + len then
        buf i + clip.getD (i - position) 0 * vol
      else buf i,
     len)

/-- Instantaneous target gain of `apply_compressor` (render.rs:325-333):
`1` when `|sample| ≤ threshold`, else `(threshold + (|sample|-threshold)/ratio) / |sample|`. -/
def targetGain (threshold ratio s : ℚ) : ℚ :=
  if threshold < |s| then (threshold + (|s| - threshold) / ratio) / |s| else 1

/-- One step of `apply_compressor` (render.rs:324-342): computes the target
gain, moves the persistent `gain_reduction` toward it with the attack
coefficient when the target is below the current value and the release
coefficient otherwise, and scales the sample by the updated value.
Returns `(output sample, updated gain_reduction)`. -/
def compressStep (threshold ratio ac rc s gr : ℚ) : ℚ × ℚ :=
  let gain := targetGain threshold ratio s
  let gr' := if gain < gr then gr + ac * (gain - gr) else gr + rc * (gain - gr)
  (s * gr', gr')

/-- The sequential compressor scan over the fx buffer (render.rs:371-375),
threading `gain_reduction` through the samples in order. -/
def compressScan (threshold ratio ac rc : ℚ) : ℚ → List ℚ → List ℚ
  | _, [] => []
  | gr, s :: rest =>
      let p := compressStep threshold ratio ac rc s gr
      p.1 :: compressScan threshold ratio ac rc p.2 rest

/-- The gain-reduction sequence under a constant input sample `m`:
`grSeq … k` is `gain_reduction` after `k` samples of magnitude `m`,
starting from `gr0`. -/
def grSeq (threshold ratio ac rc m gr0 : ℚ) : ℕ → ℚ
  | 0 => gr0
  | k + 1 => (compressStep threshold ratio ac rc m
      (grSeq threshold ratio ac rc m gr0 k)).2

/-- `let attack_time = 0.0` (render.rs:318). -/
def attack_time : ℚ := 0

/-- `let release_time = 0.0` (render.rs:319). -/
def release_time : ℚ := 0

/-- `(1.0 - (-2.0 / (attack_time * sample_rate as f32)).exp()).min(1.0)`
(render.rs:320) with `attack_time = 0.0`: in IEEE float arithmetic
`-2.0 / 0.0 = -∞` and `(-∞).exp() = 0.0`, so the expression evaluates to
`(1.0 - 0.0).min(1.0)`.  We record that evaluated form. -/
def attack_coeff : ℚ := min (1 - 0) 1

/-- `(1.0 - (-2.0 / (release_time * sample_rate as f32)).exp()).min(1.0)`
(render.rs:321) with `release_time = 0.0`; same IEEE evaluation as
`attack_coeff`. -/
def release_coeff : ℚ := min (1 - 0) 1

/-- One sample of the hard limiter, `s.max(-t).min(t)` (render.rs:369). -/
def hardLimitSample (t s : ℚ) : ℚ := min (max s (-t)) t

/-- The dynamics stage (render.rs:367-375): if `force_limit` is set, clamp
every fx sample; else if `compression_ratio > 1`, run the compressor scan
(with `gain_reduction` initialised to `gr0 = 1.0`, render.rs:322); else leave
the buffer untouched. -/
def applyDynamics (forceLimit : Bool) (ratio limitThreshold threshold ac rc gr0 : ℚ)
    (buf : List ℚ) : List ℚ :=
  if forceLimit then buf.map (hardLimitSample limitThreshold)
  else if 1 < ratio then compressScan threshold ratio ac rc gr0 buf
  else buf

/-- The pipeline depth, `const N: usize = 60` (render.rs:543): the number of
pixel-buffer capture slots. -/
def N : ℕ := 60

/-- The slot contents after the priming loop (render.rs:561-590) followed by
`k` steady-loop iterations.  Slot `j` holds the index of the frame most
recently read into it with `glReadPixels`.  Priming frame `f ∈ [0, n)` fills
slot `f`; steady iteration `k` (processing frame `f = n + k`) overwrites slot
`f % n` (render.rs:624) before any read. -/
def steadySlots (n : ℕ) : ℕ → List ℕ
  | 0 => List.range n
  | k + 1 => (steadySlots n k).set (k % n) (n + k)

/-- The frame index the steady loop reads back at iteration `k`: after issuing
the copy of frame `f = n + k`, it maps slot `(f + 1) % n` (render.rs:635). -/
def readSlot (n k : ℕ) : ℕ := (steadySlots n (k + 1)).getD ((n + k + 1) % n) 0

/-- The sequence of frame indices whose bytes are written to the video
encoder's stdin by the steady loop (render.rs:598-643) for `total` frames.
`mapOk f` tells whether `glMapBuffer` returned a non-null pointer at the
iteration processing frame `f`; on null the write is silently skipped
(render.rs:636-640). -/
def captureStream (n total : ℕ) (mapOk : ℕ → Bool) : List ℕ :=
  (List.range (total - n)).filterMap fun k =>
    if mapOk (n + k) then some (readSlot n k) else none

/-- The byte stream delivered to the encoder: each emitted frame contributes
the `byte_size`-long slice of its mapped buffer (render.rs:638), i.e. the
bytes `content f` of the frame stored in the slot. -/
def captureBytes (n total : ℕ) (mapOk : ℕ → Bool) (content : ℕ → List ℤ) :
    List ℤ :=
  (captureStream n total mapOk).flatMap content

/-- `let byte_size = vw * vh * 4` (render.rs:540). -/
def byteSize (vw vh : ℕ) : ℕ := vw * vh * 4

/-- Observable actions of a run of `main`, in program order.  IPC events
mirror `enum IPCEvent` (render.rs:122-128); `audioWrite` marks a store into
the master (`output`) or fx (`output2`) sample buffer; the spawn markers mark
`Command::spawn` for the two ffmpeg invocations; `renderFrame f` marks the
rendering of frame `f`; `encoderWrite` marks a `write_all` of one frame's
bytes to the video encoder's stdin.  The wall-clock payload of `Done` is
abstracted. -/
inductive Act where
  | startMixing
  | audioWrite
  | spawnAudioProc
  | startRender (n : ℕ)
  | spawnVideoProc
  | renderFrame (f : ℕ)
  | encoderWrite
  | frame
  | done
  deriving DecidableEq, Repr

/-- The two failure modes of the modelled fragment of `main`:
the `assert_eq!` sample-rate checks (render.rs:262-265) and the
`bail!(tl!("no-hwacc"))` configuration error (render.rs:462-468). -/
inductive RenderError where
  | sampleRateMismatch
  | noHwAccel
  deriving DecidableEq, Repr

/-- Buffer stores performed by the mixing phase, in order: the music loop
stores (render.rs:294-299, when `volume_music != 0`), the sfx `place` stores
(render.rs:346-363), the in-place dynamics stores (render.rs:367-375), and
the fold of the fx buffer into both master channels, two stores per fx sample
(render.rs:377-380).  The first three counts are abstract parameters; the
fold always runs. -/
def mixTrace (musicWrites sfxWrites dynWrites bufLen : ℕ) : List Act :=
  List.replicate musicWrites .audioWrite ++ List.replicate sfxWrites .audioWrite ++
    List.replicate dynWrites .audioWrite ++ List.replicate (2 * bufLen) .audioWrite

/-- The hardware-acceleration gate (render.rs:451-468): returns `true` iff
`main` bails with the `no-hwacc` configuration error.  `cN/cQ/cA` say whether
the probed codec list contains `h264_nvenc`/`h264_qsv`/`h264_amf`, and
`cNh/cQh/cAh` likewise for `hevc_nvenc`/`hevc_qsv`/`hevc_amf`. -/
def hwaccelBail (hwaccel hevc cN cQ cA cNh cQh cAh : Bool) : Bool :=
  let use_cuda := hwaccel && cN
  let has_qsv := hwaccel && cQ
  let has_amf := hwaccel && cA
  let use_cuda_hevc := hwaccel && cNh && hevc
  let has_qsv_hevc := hwaccel && cQh && hevc
  let has_amf_hevc := hwaccel && cAh && hevc
  if hwaccel then
    if !(use_cuda_hevc || has_qsv_hevc || has_amf_hevc) && hevc then true
    else if !(use_cuda || has_qsv || has_amf) then true
    else false
  else false

/-- The priming loop (render.rs:561-590): for each frame `f ∈ [0, n)`,
render it, issue the async copy into slot `f` (no CPU read), and send
`IPCEvent::Frame`. -/
def primingTrace (n : ℕ) : List Act :=
  (List.range n).flatMap fun f => [Act.renderFrame f, Act.frame]

/-- The steady loop (render.rs:598-643): for each frame `f ∈ [n, total)`,
render it, issue its copy, map the slot written `n` frames ago and — when the
mapping is non-null — write its bytes to the encoder, then send
`IPCEvent::Frame`. -/
def steadyTrace (n total : ℕ) (mapOk : ℕ → Bool) : List Act :=
  (List.range' n (total - n)).flatMap fun f =>
    [Act.renderFrame f] ++ (if mapOk f then [Act.encoderWrite] else []) ++ [Act.frame]

/-- The run of `main` (render.rs:185-651) restricted to the observables of
`Act`, as the trace of actions performed together with the error the run
stops with, if any.  Parameters: the five clips' sample rates (the music clip
is loaded at render.rs:229-230; the other four at render.rs:231-235); the
abstract store counts of the mixing loops and the fx-buffer length for
`mixTrace`; the configuration flags and probed-codec flags of `hwaccelBail`;
the total frame count `total` (the `frames` variable, render.rs:441); and
`mapOk` as in `captureStream`.

Program order: `StartMixing` is sent (render.rs:258) before the sample-rate
`assert_eq!`s (render.rs:262-265) — which check only the ending, click, drag
and flick clips, never the music clip — and those run before the buffers are
even allocated (render.rs:267-268).  The `no-hwacc` gate (render.rs:462-468)
runs after the audio phase but before `StartRender` (render.rs:525) and
before the video-mux process is spawned (render.rs:527-537). -/
def mainRun (musicR endingR clickR dragR flickR : ℕ)
    (musicWrites sfxWrites dynWrites bufLen : ℕ)
    (hwaccel hevc cN cQ cA cNh cQh cAh : Bool)
    (total : ℕ) (mapOk : ℕ → Bool) : List Act × Option RenderError :=
  let t0 := [Act.startMixing]
  if ¬(endingR = sampleRate ∧ clickR = sampleRate ∧ dragR = sampleRate ∧
        flickR = sampleRate) then
    (t0, some .sampleRateMismatch)
  else
    let t1 := t0 ++ mixTrace musicWrites sfxWrites dynWrites bufLen ++
      [Act.spawnAudioProc]
    if hwaccelBail hwaccel hevc cN cQ cA cNh cQh cAh then
      (t1, some .noHwAccel)
    else
      (t1 ++ [Act.startRender total, Act.spawnVideoProc] ++ primingTrace N ++
        steadyTrace N total mapOk ++ [Act.done], none)

/-- Projection onto the IPC events of `enum IPCEvent`. -/
def isIpc : Act → Bool
  | .startMixing => true
  | .startRender _ => true
  | .frame => true
  | .done => true
  | _ => false

/-- Helper: one compressor step on a constant input `m` with the current
gain-reduction at or above the instantaneous target moves it toward the
target geometrically with the attack coefficient; the release coefficient is
not consulted (it only multiplies the zero difference when the two are
equal). -/
theorem compressStep_const_above (threshold ratio ac rc m gr : ℚ)
    (h : targetGain threshold ratio m ≤ gr) :
    (compressStep threshold ratio ac rc m gr).2 =
      targetGain threshold ratio m + (1 - ac) * (gr - targetGain threshold ratio m) := by
  by_cases hlt : targetGain threshold ratio m < gr
  · simp only [compressStep, if_pos hlt]
    ring
  · have heq : gr = targetGain threshold ratio m := le_antisymm (not_lt.mp hlt) h
    simp [compressStep, if_neg hlt, heq]

/-- Helper: closed form of the gain-reduction sequence on a constant input
above an initial value at or above the target:
`grSeq k = g* + (1-ac)^k * (gr0 - g*)` where `g*` is the instantaneous
target gain.  The release coefficient `rc` does not occur on the right. -/
theorem grSeq_closed_form (threshold ratio ac rc m gr0 : ℚ)
    (hac1 : ac ≤ 1) (hgr : targetGain threshold ratio m ≤ gr0) :
    ∀ k, grSeq threshold ratio ac rc m gr0 k =
      targetGain threshold ratio m +
        (1 - ac) ^ k * (gr0 - targetGain threshold ratio m) := by
  intro k
  induction k with
  | zero => simp [grSeq]
  | succ k ih =>
      have hnn : (0 : ℚ) ≤ (1 - ac) ^ k * (gr0 - targetGain threshold ratio m) :=
        mul_nonneg (pow_nonneg (by linarith) k) (by linarith)
      have hge : targetGain threshold ratio m ≤ grSeq threshold ratio ac rc m gr0 k := by
        rw [ih]; linarith
      show (compressStep threshold ratio ac rc m
          (grSeq threshold ratio ac rc m gr0 k)).2 = _
      rw [compressStep_const_above _ _ _ _ _ _ hge, ih]
      ring

/-- Claim C6: `place` converts the position to a sample offset by rounding
`pos * 48000`; an offset at or past the buffer length writes nothing and
returns `0`; otherwise it adds `clip[i] * gain` to `buf[offset + i]` for
`i < min (clip length) (buffer length - offset)`, leaves every other entry
unchanged, and returns that count; and on a zeroed buffer a second identical
call exactly doubles the single-call result (additive, not idempotent). -/
theorem c6_place_spec (n : ℕ) (buf : ℕ → ℚ) (pos : ℚ) (clip : List ℚ) (vol : ℚ) :
    (n ≤ rustIndex pos → place n buf pos clip vol = (buf, 0)) ∧
    (rustIndex pos < n →
      (place n buf pos clip vol).2 = min (n - rustIndex pos) clip.length ∧
      (∀ i, rustIndex pos ≤ i ∧
          i < rustIndex pos + min (n - rustIndex pos) clip.length →
        (place n buf pos clip vol).1 i = buf i + clip.getD (i - rustIndex pos) 0 * vol) ∧
      (∀ i, ¬(rustIndex pos ≤ i ∧
          i < rustIndex pos + min (n - rustIndex pos) clip.length) →
        (place n buf pos clip vol).1 i = buf i)) ∧
    (∀ i, (place n (place n (fun _ => 0) pos clip vol).1 pos clip vol).1 i =
      2 * (place n (fun _ => 0) pos clip vol).1 i) := by
  refine ⟨fun h => by simp [place, h], fun h => ?_, fun i => ?_⟩
  · have h' : ¬ n ≤ rustIndex pos := not_le.mpr h
    refine ⟨by simp [place, h'], fun i hi => by simp [place, h', hi], fun i hi => ?_⟩
    simp only [place, if_neg h']
    exact if_neg hi
  · by_cases h : n ≤ rustIndex pos
    · simp [place, h]
    · simp only [place, if_neg h]
      by_cases hi : rustIndex pos ≤ i ∧
          i < rustIndex pos + min (n - rustIndex pos) clip.length
      · simp only [if_pos hi]
        ring
      · simp only [if_neg hi]
        ring

/-- Witness for `c6_place_spec`: buffer length 4, `pos = 0`, a two-sample
clip `[2, 3]` at gain `5`. -/
theorem c6_place_spec_witness :
    rustIndex 0 < 4 ∧
    (place 4 (fun _ => 0) 0 [2, 3] 5).2 = min (4 - rustIndex 0) 2 := by
  have h : rustIndex 0 < 4 := by norm_num [rustIndex, rustRound]
  exact ⟨h, ((c6_place_spec 4 (fun _ => 0) 0 [2, 3] 5).2.1 h).1⟩

/-- Claim C3, counterexample: with threshold `1`, ratio `2`, constant input
magnitude `3` and the same release coefficient `1`, one step from
`gain_reduction = 1` gives `2/3` under attack coefficient `1` but `5/6` under
attack coefficient `1/2` — the attack coefficient does govern the
approach-from-above, contradicting the claim that only the release
coefficient does; moreover after five steps the value sits at `2/3`, the
instantaneous target `(1 + (3-1)/2)/3`, not at `threshold/input = 1/3`. -/
theorem c3_attack_governs_descent :
    grSeq 1 2 1 1 3 1 1 ≠ grSeq 1 2 (1/2) 1 3 1 1 ∧
    grSeq 1 2 1 1 3 1 1 = 2/3 ∧
    grSeq 1 2 (1/2) 1 3 1 1 = 5/6 ∧
    grSeq 1 2 1 1 3 1 5 = 2/3 ∧
    (2 : ℚ)/3 ≠ 1/3 := by
  norm_num [grSeq, compressStep, targetGain, abs]

/-- Claim C3 (amended): on a constant input magnitude `m` above the
threshold, with `ratio > 1` and attack coefficient `ac ∈ (0, 1]`, starting
from any `gain_reduction` at or above the instantaneous target gain
`g* = targetGain θ ratio m = (θ + (m-θ)/ratio)/m`, the gain-reduction scalar
satisfies `grSeq k = g* + (1-ac)^k (gr0 - g*)`: it decreases monotonically to
`g*` (not to `threshold/m`), and the rate is governed solely by the attack
coefficient — the release coefficient has no effect on the
approach-from-above. -/
theorem c3_const_input_convergence (threshold ratio ac rc m gr0 : ℚ)
    (hac0 : 0 < ac) (hac1 : ac ≤ 1)
    (hgr : targetGain threshold ratio m ≤ gr0) :
    (∀ k, grSeq threshold ratio ac rc m gr0 k =
      targetGain threshold ratio m +
        (1 - ac) ^ k * (gr0 - targetGain threshold ratio m)) ∧
    (∀ k, grSeq threshold ratio ac rc m gr0 (k + 1) ≤
      grSeq threshold ratio ac rc m gr0 k) ∧
    (∀ k, targetGain threshold ratio m ≤ grSeq threshold ratio ac rc m gr0 k) ∧
    (∀ rc' k, grSeq threshold ratio ac rc' m gr0 k =
      grSeq threshold ratio ac rc m gr0 k) := by
  have hcf := grSeq_closed_form threshold ratio ac rc m gr0 hac1 hgr
  have hnn : ∀ k, (0 : ℚ) ≤ (1 - ac) ^ k * (gr0 - targetGain threshold ratio m) :=
    fun k => mul_nonneg (pow_nonneg (by linarith) k) (by linarith)
  refine ⟨hcf, fun k => ?_, fun k => ?_, fun rc' k => ?_⟩
  · rw [hcf, hcf]
    have := hnn k
    have h1ac : (0 : ℚ) ≤ 1 - ac := by linarith
    calc targetGain threshold ratio m +
        (1 - ac) ^ (k + 1) * (gr0 - targetGain threshold ratio m)
        = targetGain threshold ratio m +
          (1 - ac) * ((1 - ac) ^ k * (gr0 - targetGain threshold ratio m)) := by ring
      _ ≤ targetGain threshold ratio m +
          1 * ((1 - ac) ^ k * (gr0 - targetGain threshold ratio m)) := by nlinarith
      _ = targetGain threshold ratio m +
          (1 - ac) ^ k * (gr0 - targetGain threshold ratio m) := by ring
  · rw [hcf]
    have := hnn k
    linarith
  · rw [grSeq_closed_form threshold ratio ac rc' m gr0 hac1 hgr, hcf]

/-- Witness for `c3_const_input_convergence`: threshold `1`, ratio `2`,
attack `1/2`, release `7`, constant input `3`, initial gain-reduction `1`
(the code's initialisation); after two steps the scalar is
`2/3 + (1/2)^2 * 1/3 = 3/4`. -/
theorem c3_const_input_convergence_witness :
    (0 : ℚ) < 1/2 ∧ (1/2 : ℚ) ≤ 1 ∧ targetGain 1 2 3 ≤ 1 ∧
    grSeq 1 2 (1/2) 7 3 1 2 =
      targetGain 1 2 3 + (1 - 1/2) ^ 2 * (1 - targetGain 1 2 3) := by
  refine ⟨by norm_num, by norm_num, by norm_num [targetGain, abs], ?_⟩
  exact (c3_const_input_convergence 1 2 (1/2) 7 3 1 (by norm_num) (by norm_num)
    (by norm_num [targetGain, abs])).1 2

/-- Claim C7, counterexample: the hard limiter is `s.max(-t).min(t)`; with
the configured `limit_threshold = -1` every output sample is `-1`, whose
absolute value `1` is not `≤ -1`, so the claimed bound fails for negative
configured thresholds. -/
theorem c7_negative_threshold_violates_bound :
    applyDynamics true 2 (-1) 1 1 1 1 [0] = [-1] ∧
    ¬(|(-1 : ℚ)| ≤ (-1 : ℚ)) := by
  constructor
  · norm_num [applyDynamics, hardLimitSample]
  · norm_num

/-- Claim C7 (amended): when `force_limit` is set and the configured
`limit_threshold` is nonnegative, every sample of the fx buffer after the
dynamics stage satisfies `|s| ≤ limit_threshold`, for all input buffers. -/
theorem c7_hard_limiter_bound (ratio limitThreshold threshold ac rc gr0 : ℚ)
    (buf : List ℚ) (ht : 0 ≤ limitThreshold) :
    ∀ s ∈ applyDynamics true ratio limitThreshold threshold ac rc gr0 buf,
      |s| ≤ limitThreshold := by
  intro s hs
  simp only [applyDynamics, if_pos] at hs
  obtain ⟨x, -, rfl⟩ := List.mem_map.mp hs
  rw [abs_le, hardLimitSample]
  constructor
  · exact le_min (le_max_right x (-limitThreshold)) (by linarith)
  · exact min_le_right _ _

/-- Witness for `c7_hard_limiter_bound`: threshold `2`, buffer `[5, -7, 1]`. -/
theorem c7_hard_limiter_bound_witness :
    (0 : ℚ) ≤ 2 ∧
    ∀ s ∈ applyDynamics true 1 2 1 1 1 1 [5, -7, 1], |s| ≤ 2 :=
  ⟨by norm_num, c7_hard_limiter_bound 1 2 1 1 1 1 [5, -7, 1] (by norm_num)⟩

/-- Claim C8: the shipped pipeline hard-codes `attack_time = 0` and
`release_time = 0`, so both coefficients evaluate to exactly `1`; with those
coefficients every compressor step sets the persistent gain-reduction scalar
to the sample's instantaneous target gain and outputs
`sample * targetGain`, i.e. the compressor performs no temporal smoothing in
any configuration reachable from the public interface (the coefficients do
not depend on the configuration). -/
theorem c8_unit_coefficients_no_smoothing :
    attack_time = 0 ∧ release_time = 0 ∧
    attack_coeff = 1 ∧ release_coeff = 1 ∧
    ∀ threshold ratio s gr,
      (compressStep threshold ratio attack_coeff release_coeff s gr).2 =
        targetGain threshold ratio s ∧
      (compressStep threshold ratio attack_coeff release_coeff s gr).1 =
        s * targetGain threshold ratio s := by
  have h1 : attack_coeff = 1 := by norm_num [attack_coeff]
  have h2 : release_coeff = 1 := by norm_num [release_coeff]
  refine ⟨rfl, rfl, h1, h2, ?_⟩
  intro threshold ratio s gr
  rw [h1, h2]
  simp only [compressStep]
  constructor <;> split_ifs <;> ring

/-- Claim C10: the dynamics stage is exhaustive with limiter precedence:
with `force_limit` set it is exactly the hard limiter (the compressor is
never applied, whatever `compression_ratio` is), and with `force_limit`
unset and `compression_ratio ≤ 1` the fx buffer is returned exactly
unchanged. -/
theorem c10_dynamics_mode_selection :
    (∀ ratio limitThreshold threshold ac rc gr0 (buf : List ℚ),
      applyDynamics true ratio limitThreshold threshold ac rc gr0 buf =
        buf.map (hardLimitSample limitThreshold)) ∧
    (∀ ratio limitThreshold threshold ac rc gr0 (buf : List ℚ), ratio ≤ 1 →
      applyDynamics false ratio limitThreshold threshold ac rc gr0 buf = buf) := by
  constructor
  · intro ratio limitThreshold threshold ac rc gr0 buf
    simp [applyDynamics]
  · intro ratio limitThreshold threshold ac rc gr0 buf h
    simp [applyDynamics, not_lt.mpr h]

/-- Witness for `c10_dynamics_mode_selection`: ratio `1 ≤ 1` leaves the
buffer `[3, -4]` untouched. -/
theorem c10_dynamics_mode_selection_witness :
    (1 : ℚ) ≤ 1 ∧ applyDynamics false 1 5 1 1 1 1 [3, -4] = [3, -4] :=
  ⟨le_refl 1, c10_dynamics_mode_selection.2 1 5 1 1 1 1 [3, -4] (le_refl 1)⟩

/-- Helper: the capture ring always has `n` slots. -/
theorem steadySlots_length (n k : ℕ) : (steadySlots n k).length = n := by
  induction k with
  | zero => simp [steadySlots]
  | succ k ih => simp [steadySlots, ih]

/-- Helper: after `k` steady iterations, slot `j` holds the most recent frame
index congruent to `j` modulo `n` among the `n + k` frames copied so far,
namely `n + k - 1 - ((n + k - 1 - j) % n)`. -/
theorem steadySlots_getD (n : ℕ) (hn : 0 < n) :
    ∀ k j, j < n →
      (steadySlots n k).getD j 0 = n + k - 1 - ((n + k - 1 - j) % n) := by
  intro k
  induction k with
  | zero =>
      intro j hj
      rw [steadySlots, List.getD_eq_getElem?_getD, List.getElem?_range hj]
      have h1 : n + 0 - 1 - j < n := by omega
      rw [Nat.mod_eq_of_lt h1]
      simp
      omega
  | succ k ih =>
      intro j hj
      by_cases hjk : j = k % n
      · subst hjk
        rw [steadySlots, List.getD_eq_getElem?_getD,
          List.getElem?_set_self (by rw [steadySlots_length]; exact Nat.mod_lt k hn)]
        have hd : (n + k - k % n) % n = 0 := by
          have hdm := Nat.div_add_mod k n
          have hx : n * (k / n + 1) = n * (k / n) + n := by ring
          have he : n + k - k % n = n * (k / n + 1) := by omega
          rw [he, Nat.mul_mod_right]
        show n + k = n + (k + 1) - 1 - ((n + (k + 1) - 1 - k % n) % n)
        have he2 : n + (k + 1) - 1 = n + k := by omega
        rw [he2, hd]
        omega
      · have hkn : k % n < n := Nat.mod_lt k hn
        rw [steadySlots, List.getD_eq_getElem?_getD,
          List.getElem?_set_ne (fun h => hjk h.symm),
          ← List.getD_eq_getElem?_getD, ih j hj]
        have ha1 : n + k - j = (n + k - 1 - j) + 1 := by omega
        have he2 : n + (k + 1) - 1 = n + k := by omega
        rw [he2, ha1]
        set a := n + k - 1 - j with ha
        have hr : a % n < n := Nat.mod_lt a hn
        have hamod : a % n ≠ n - 1 := by
          intro hmod
          have hdvd : n ∣ a + 1 := ⟨a / n + 1, by
            have hdm := Nat.div_add_mod a n
            have hx : n * (a / n + 1) = n * (a / n) + n := by ring
            omega⟩
          obtain ⟨c, hc⟩ := hdvd
          match c, hc with
          | 0, hc => omega
          | c + 1, hc =>
              have hmul : a + 1 = n * c + n := by rw [hc]; ring
              have hk : k = n * c + j := by omega
              have : k % n = j := by rw [hk, Nat.mul_add_mod, Nat.mod_eq_of_lt hj]
              exact hjk this.symm
        have hsucc : (a + 1) % n = a % n + 1 := by
          rw [Nat.add_mod, Nat.one_mod_eq_one.mpr (by omega),
            Nat.mod_eq_of_lt (by omega)]
        rw [hsucc]
        omega

/-- Helper: the slot the steady loop maps at iteration `k` — slot
`(f + 1) % n` after issuing the copy of frame `f = n + k` — holds frame
`k + 1`, the frame copied `n - 1` iterations before the current one. -/
theorem readSlot_eq (n k : ℕ) (hn : 0 < n) : readSlot n k = k + 1 := by
  rw [readSlot]
  have h1 : (n + k + 1) % n = (k + 1) % n := by
    have he : n + k + 1 = (k + 1) + n := by ring
    rw [he, Nat.add_mod_right]
  rw [h1, steadySlots_getD n hn (k + 1) ((k + 1) % n) (Nat.mod_lt _ hn)]
  have hdm := Nat.div_add_mod (k + 1) n
  have he2 : n + (k + 1) - 1 = n + k := by omega
  have he3 : n + k - (k + 1) % n = n * ((k + 1) / n) + (n - 1) := by omega
  rw [he2, he3, Nat.mul_add_mod, Nat.mod_eq_of_lt (by omega)]
  omega

/-- Helper: with every `glMapBuffer` succeeding, the frame indices delivered
to the encoder by the steady loop are exactly `1, 2, …, total - n`. -/
theorem captureStream_all_ok (n total : ℕ) (hn : 0 < n) :
    captureStream n total (fun _ => true) = List.range' 1 (total - n) := by
  rw [captureStream]
  have hfun : (fun k => if (fun _ => true) (n + k) = true
        then some (readSlot n k) else none) =
      (some ∘ fun k => k + 1) := by
    funext k
    simp [readSlot_eq n k hn]
  rw [hfun, List.filterMap_eq_map, List.range'_eq_map_range]
  exact List.map_congr_left fun x _ => Nat.add_comm x 1

/-- Claim C2, counterexample: with the code's `N = 60` slots and
`total = 61 ≥ N` frames, the steady phase consists of exactly frame `60`,
yet the stream delivered to the encoder is `[1]` — frame `60` (a
steady-phase frame) is omitted, because the slot mapped at iteration `f`
holds frame `f + 1 - N`, so the last `N - 1` frames (and frame `0`) never
reach the encoder. -/
theorem c2_steady_frame_omitted :
    captureStream 60 61 (fun _ => true) = [1] ∧
    (60 : ℕ) ∈ List.range' N (61 - N) ∧
    (60 : ℕ) ∉ captureStream 60 61 (fun _ => true) := by
  refine ⟨?_, by decide, ?_⟩ <;> · rw [captureStream_all_ok 60 61 (by norm_num)]; decide

/-- Claim C2 (amended): for `n ≥ 1` capture slots and `total ≥ n` frames
with every mapping succeeding, the byte stream written to the encoder's
stdin during the steady phase is the frames `1, 2, …, total - n` in strictly
increasing frame-index order, exactly one frame's worth (`width*height*4`
bytes) per frame, with no duplication; frame `0` and the last `n - 1` frames
(which include the trailing steady-phase frames when `n ≥ 2`) are never
delivered. -/
theorem c2_stream_increasing_no_dup (n total vw vh : ℕ) (content : ℕ → List ℤ)
    (hn : 0 < n) (htot : n ≤ total)
    (hc : ∀ f, (content f).length = byteSize vw vh) :
    captureStream n total (fun _ => true) = List.range' 1 (total - n) ∧
    List.Pairwise (· < ·) (captureStream n total (fun _ => true)) ∧
    captureBytes n total (fun _ => true) content =
      (List.range' 1 (total - n)).flatMap content ∧
    (captureBytes n total (fun _ => true) content).length =
      (total - n) * byteSize vw vh := by
  have hs := captureStream_all_ok n total hn
  refine ⟨hs, ?_, ?_, ?_⟩
  · rw [hs]; exact List.pairwise_lt_range' 1 (total - n)
  · rw [captureBytes, hs]
  · rw [captureBytes, hs, List.length_flatMap]
    have hmap : List.map (List.length ∘ content) (List.range' 1 (total - n)) =
        List.replicate (total - n) (byteSize vw vh) := by
      refine List.eq_replicate_iff.mpr ⟨by simp, ?_⟩
      intro b hb
      obtain ⟨f, -, rfl⟩ := List.mem_map.mp hb
      exact hc f
    rw [hmap, List.sum_replicate, smul_eq_mul]

/-- Witness for `c2_stream_increasing_no_dup` at `n = 2`, `total = 5`,
`1×1` frames whose bytes are `[f, f, f, f]`. -/
theorem c2_stream_increasing_no_dup_witness :
    (0 < 2 ∧ 2 ≤ 5 ∧ ∀ f : ℕ, ([(f : ℤ), f, f, f]).length = byteSize 1 1) ∧
    captureStream 2 5 (fun _ => true) = List.range' 1 3 := by
  have h : ∀ f : ℕ, ([(f : ℤ), f, f, f]).length = byteSize 1 1 := by
    intro f; rfl
  exact ⟨⟨by norm_num, by norm_num, h⟩,
    (c2_stream_increasing_no_dup 2 5 1 1 (fun f => [(f : ℤ), f, f, f])
      (by norm_num) (by norm_num) h).1⟩

/-- Helper: a successful run (all four checked sample rates equal to 48000,
hardware-acceleration gate passed) performs the full trace and no error. -/
theorem mainRun_success (musicR : ℕ) (musicWrites sfxWrites dynWrites bufLen : ℕ)
    (hwaccel hevc cN cQ cA cNh cQh cAh : Bool) (total : ℕ) (mapOk : ℕ → Bool)
    (hgate : hwaccelBail hwaccel hevc cN cQ cA cNh cQh cAh = false) :
    mainRun musicR sampleRate sampleRate sampleRate sampleRate
        musicWrites sfxWrites dynWrites bufLen
        hwaccel hevc cN cQ cA cNh cQh cAh total mapOk =
      ([Act.startMixing] ++ mixTrace musicWrites sfxWrites dynWrites bufLen ++
        [Act.spawnAudioProc] ++ [Act.startRender total, Act.spawnVideoProc] ++
        primingTrace N ++ steadyTrace N total mapOk ++ [Act.done], none) := by
  simp [mainRun, hgate]

/-- Helper: the mixing-phase stores are not IPC events. -/
theorem filter_isIpc_mixTrace (a b c d : ℕ) :
    (mixTrace a b c d).filter isIpc = [] := by
  simp [mixTrace, List.filter_append, List.filter_replicate, isIpc]

/-- Helper: the priming loop's IPC events are one `Frame` per primed frame. -/
theorem filter_isIpc_primingTrace (n : ℕ) :
    (primingTrace n).filter isIpc = List.replicate n Act.frame := by
  induction n with
  | zero => rfl
  | succ n ih =>
      rw [primingTrace, List.range_succ, List.flatMap_append, List.filter_append]
      rw [primingTrace] at ih
      rw [ih, List.replicate_succ']
      simp [isIpc]

/-- Helper: the steady loop's IPC events are one `Frame` per steady frame,
whether or not the buffer mapping succeeded. -/
theorem filter_isIpc_steady_block (mapOk : ℕ → Bool) :
    ∀ m s, ((List.range' s m).flatMap fun f =>
      [Act.renderFrame f] ++ (if mapOk f then [Act.encoderWrite] else []) ++
        [Act.frame]).filter isIpc = List.replicate m Act.frame := by
  intro m
  induction m with
  | zero => intro s; rfl
  | succ m ih =>
      intro s
      rw [List.range'_succ, List.flatMap_cons, List.filter_append, ih (s + 1),
        List.replicate_succ]
      by_cases h : mapOk s <;> simp [h, isIpc]

/-- Claim C4: every successful run's IPC events are, in order: `StartMixing`
once (the head of the whole trace, hence before any buffer store), then
`StartRender` carrying the total frame count, once, before any frame is
rendered, then `Frame` exactly once per rendered frame — interleaved with
the render of that frame in both the priming and steady phases, as the full
trace shows — and finally `Done`, exactly once, as the last action.  Holds
for every music-clip sample rate `musicR`: the music clip is never
rate-checked. -/
theorem c4_ipc_event_order (musicR : ℕ)
    (musicWrites sfxWrites dynWrites bufLen : ℕ)
    (hwaccel hevc cN cQ cA cNh cQh cAh : Bool) (total : ℕ) (mapOk : ℕ → Bool)
    (hgate : hwaccelBail hwaccel hevc cN cQ cA cNh cQh cAh = false)
    (htot : N ≤ total) :
    mainRun musicR sampleRate sampleRate sampleRate sampleRate
        musicWrites sfxWrites dynWrites bufLen
        hwaccel hevc cN cQ cA cNh cQh cAh total mapOk =
      ([Act.startMixing] ++ mixTrace musicWrites sfxWrites dynWrites bufLen ++
        [Act.spawnAudioProc] ++ [Act.startRender total, Act.spawnVideoProc] ++
        primingTrace N ++ steadyTrace N total mapOk ++ [Act.done], none) ∧
    (mainRun musicR sampleRate sampleRate sampleRate sampleRate
        musicWrites sfxWrites dynWrites bufLen
        hwaccel hevc cN cQ cA cNh cQh cAh total mapOk).1.filter isIpc =
      [Act.startMixing, Act.startRender total] ++
        List.replicate total Act.frame ++ [Act.done] ∧
    (mainRun musicR sampleRate sampleRate sampleRate sampleRate
        musicWrites sfxWrites dynWrites bufLen
        hwaccel hevc cN cQ cA cNh cQh cAh total mapOk).1.head? =
      some Act.startMixing ∧
    (mainRun musicR sampleRate sampleRate sampleRate sampleRate
        musicWrites sfxWrites dynWrites bufLen
        hwaccel hevc cN cQ cA cNh cQh cAh total mapOk).1.getLast? =
      some Act.done := by
  have hs := mainRun_success musicR musicWrites sfxWrites dynWrites bufLen
    hwaccel hevc cN cQ cA cNh cQh cAh total mapOk hgate
  refine ⟨hs, ?_, ?_, ?_⟩
  · rw [hs]
    rw [steadyTrace]
    simp only [List.filter_append, filter_isIpc_mixTrace,
      filter_isIpc_primingTrace, filter_isIpc_steady_block mapOk (total - N) N]
    have hrep : List.replicate N Act.frame ++ List.replicate (total - N) Act.frame =
        List.replicate total Act.frame := by
      rw [← List.replicate_add]
      congr 1
      omega
    simp [isIpc, ← List.append_assoc, hrep]
  · rw [hs]
    rfl
  · rw [hs]
    simp only [← List.append_assoc]
    rw [List.getLast?_append]
    rfl

/-- Witness for `c4_ipc_event_order`: a software-encoded run of 60 frames. -/
theorem c4_ipc_event_order_witness :
    (hwaccelBail false false false false false false false false = false ∧
      N ≤ 60) ∧
    (mainRun 48000 sampleRate sampleRate sampleRate sampleRate 1 1 0 2
        false false false false false false false false 60 (fun _ => true)).1.filter
        isIpc =
      [Act.startMixing, Act.startRender 60] ++
        List.replicate 60 Act.frame ++ [Act.done] :=
  ⟨⟨rfl, by decide⟩,
    (c4_ipc_event_order 48000 1 1 0 2 false false false false false false
      false false 60 (fun _ => true) rfl (by decide)).2.1⟩

/-- Claim C5: when hardware acceleration is requested but the probed codec
list contains none of the recognized hardware encoder names (neither the
h264 nor the hevc variants of nvenc/qsv/amf), the run stops with the
`no-hwacc` configuration error; the trace contains no `spawnVideoProc` (the
video-mux subprocess is never spawned) and no `StartRender` event.  Holds
for either state of the HEVC flag and any music sample rate. -/
theorem c5_hwaccel_unavailable_fails_before_spawn (musicR : ℕ)
    (musicWrites sfxWrites dynWrites bufLen : ℕ) (hevc : Bool)
    (total : ℕ) (mapOk : ℕ → Bool) :
    (mainRun musicR sampleRate sampleRate sampleRate sampleRate
        musicWrites sfxWrites dynWrites bufLen
        true hevc false false false false false false total mapOk).2 =
      some RenderError.noHwAccel ∧
    Act.spawnVideoProc ∉ (mainRun musicR sampleRate sampleRate sampleRate
        sampleRate musicWrites sfxWrites dynWrites bufLen
        true hevc false false false false false false total mapOk).1 ∧
    ∀ n, Act.startRender n ∉ (mainRun musicR sampleRate sampleRate sampleRate
        sampleRate musicWrites sfxWrites dynWrites bufLen
        true hevc false false false false false false total mapOk).1 := by
  have hb : hwaccelBail true hevc false false false false false false = true := by
    cases hevc <;> rfl
  have hm : mainRun musicR sampleRate sampleRate sampleRate sampleRate
      musicWrites sfxWrites dynWrites bufLen
      true hevc false false false false false false total mapOk =
      ([Act.startMixing] ++ mixTrace musicWrites sfxWrites dynWrites bufLen ++
        [Act.spawnAudioProc], some RenderError.noHwAccel) := by
    simp [mainRun, hb]
  refine ⟨by rw [hm], ?_, ?_⟩
  · rw [hm]
    simp [mixTrace, List.mem_replicate]
  · intro n
    rw [hm]
    simp [mixTrace, List.mem_replicate]

/-- Claim C1 (amended): a 48000-mismatch in any of the four clips the code
does check — ending, click, drag, flick — stops the run with the
sample-rate failure immediately after `StartMixing`: the whole trace is
`[startMixing]`, so no sample is ever written to the master or fx buffer
(no partial output).  The music clip, however, is not covered (see
`c1_music_rate_mismatch_not_detected`). -/
theorem c1_checked_rate_mismatch_fails_before_writes
    (musicR endingR clickR dragR flickR : ℕ)
    (musicWrites sfxWrites dynWrites bufLen : ℕ)
    (hwaccel hevc cN cQ cA cNh cQh cAh : Bool) (total : ℕ) (mapOk : ℕ → Bool)
    (h : ¬(endingR = sampleRate ∧ clickR = sampleRate ∧ dragR = sampleRate ∧
      flickR = sampleRate)) :
    mainRun musicR endingR clickR dragR flickR
        musicWrites sfxWrites dynWrites bufLen
        hwaccel hevc cN cQ cA cNh cQh cAh total mapOk =
      ([Act.startMixing], some RenderError.sampleRateMismatch) ∧
    Act.audioWrite ∉ (mainRun musicR endingR clickR dragR flickR
        musicWrites sfxWrites dynWrites bufLen
        hwaccel hevc cN cQ cA cNh cQh cAh total mapOk).1 := by
  have hm : mainRun musicR endingR clickR dragR flickR
      musicWrites sfxWrites dynWrites bufLen
      hwaccel hevc cN cQ cA cNh cQh cAh total mapOk =
      ([Act.startMixing], some RenderError.sampleRateMismatch) := by
    simp only [mainRun, if_pos h]
  exact ⟨hm, by rw [hm]; decide⟩

/-- Witness for `c1_checked_rate_mismatch_fails_before_writes`: an ending
clip at 44100 Hz. -/
theorem c1_checked_rate_mismatch_witness :
    ¬((44100 : ℕ) = sampleRate ∧ (48000 : ℕ) = sampleRate ∧
      (48000 : ℕ) = sampleRate ∧ (48000 : ℕ) = sampleRate) ∧
    mainRun 48000 44100 48000 48000 48000 0 0 0 2
        false false false false false false false false 61 (fun _ => true) =
      ([Act.startMixing], some RenderError.sampleRateMismatch) :=
  ⟨by decide,
    (c1_checked_rate_mismatch_fails_before_writes 48000 44100 48000 48000 48000
      0 0 0 2 false false false false false false false false 61
      (fun _ => true) (by decide)).1⟩

/-- Claim C1, counterexample: a music clip whose sample rate (44100) differs
from the pipeline's 48000 does NOT make the mixing phase fail: the run
completes without error (`Done` is reached) and samples are written to the
buffers — the `assert_eq!` checks at render.rs:262-265 cover only the
ending, click, drag and flick clips, never the music clip loaded at
render.rs:229-230. -/
theorem c1_music_rate_mismatch_not_detected :
    (mainRun 44100 48000 48000 48000 48000 0 0 0 2
        false false false false false false false false 61 (fun _ => true)).2 =
      none ∧
    Act.audioWrite ∈ (mainRun 44100 48000 48000 48000 48000 0 0 0 2
        false false false false false false false false 61 (fun _ => true)).1 ∧
    Act.done ∈ (mainRun 44100 48000 48000 48000 48000 0 0 0 2
        false false false false false false false false 61 (fun _ => true)).1 := by
  refine ⟨?_, ?_, ?_⟩ <;> decide

/-- Claim C9: if `glMapBuffer` yields a null pointer at the steady-phase
iteration processing frame `f0`, the frame whose bytes that iteration would
have delivered — frame `f0 + 1 - N`, held in the mapped slot — is silently
dropped from the encoder stream: it never appears in `captureStream`, while
the run still finishes without error and `Done` is the last action, so the
omission is never surfaced. -/
theorem c9_null_map_skips_frame_silently (musicR : ℕ)
    (musicWrites sfxWrites dynWrites bufLen : ℕ) (total f0 : ℕ)
    (mapOk : ℕ → Bool)
    (h1 : N ≤ f0) (h2 : f0 < total) (hmap : mapOk f0 = false) :
    (f0 + 1 - N) ∉ captureStream N total mapOk ∧
    (mainRun musicR sampleRate sampleRate sampleRate sampleRate
        musicWrites sfxWrites dynWrites bufLen
        false false false false false false false false total mapOk).2 = none ∧
    (mainRun musicR sampleRate sampleRate sampleRate sampleRate
        musicWrites sfxWrites dynWrites bufLen
        false false false false false false false false total mapOk).1.getLast? =
      some Act.done := by
  have hm := mainRun_success musicR musicWrites sfxWrites dynWrites bufLen
    false false false false false false false false total mapOk rfl
  refine ⟨?_, by rw [hm], ?_⟩
  · intro hmem
    obtain ⟨k, -, hif⟩ := List.mem_filterMap.mp hmem
    by_cases hok : mapOk (N + k)
    · rw [if_pos hok, readSlot_eq N k (by decide)] at hif
      have hinj : k + 1 = f0 + 1 - N := Option.some.inj hif
      have hf : N + k = f0 := by
        have hN : (0 : ℕ) < N := by decide
        omega
      rw [hf, hmap] at hok
      exact absurd hok (by decide)
    · rw [if_neg hok] at hif
      exact Option.noConfusion hif
  · rw [hm]
    simp only [← List.append_assoc]
    rw [List.getLast?_append]
    rfl

/-- Witness for `c9_null_map_skips_frame_silently`: 62 total frames with the
mapping failing at steady frame 60; frame `60 + 1 - N = 1` is dropped. -/
theorem c9_null_map_skips_frame_silently_witness :
    (N ≤ 60 ∧ 60 < 62 ∧ (fun f => f != 60) 60 = false) ∧
    (60 + 1 - N) ∉ captureStream N 62 (fun f => f != 60) :=
  ⟨⟨by decide, by decide, rfl⟩,
    (c9_null_map_skips_frame_silently 48000 0 0 0 2 62 60 (fun f => f != 60)
      (by decide) (by decide) rfl).1⟩
